import Mathlib

/-!
Verification of the CrossMuse streaming pipeline (cm_player.py, cm_loader.py,
cm_controller.py) against its natural-language specification.  The Python
classes are shallowly embedded: numpy arrays become lists, ints become Nat/Int
with explicit mod arithmetic, float samples are modelled exactly over the
rationals, and external effects (downloads, the random shuffles, Python's
builtin hash and int) are abstracted as parameters.
-/

set_option maxHeartbeats 1000000

namespace CrossMuse

/-- The slice of `AudioConfig` (cm_settings.py) that enters the ring-buffer
arithmetic: only `block_size` is used by `AtomicBuffer.write` and
`AtomicBuffer.read`. -/
structure AudioCfg where
  blockSize : ℕ
  deriving DecidableEq

/-- State of `AtomicBuffer` (cm_player.py, lines 20-103).  `buffer` holds one
entry per sample frame (the `channels`-wide rows of the numpy array are
abstracted to a single value of type `α`), `idBuffer` is the per-block song-tag
array `id_buffer`, and the remaining fields mirror the Python attributes;
`capacity = len(self.buffer)` as set in `__init__`. -/
structure AtomicBuffer (α : Type) where
  buffer : List α
  idBuffer : List ℤ
  writePos : ℕ
  readPos : ℕ
  capacity : ℕ
  available : ℕ
  loaderComplete : Bool
  deriving DecidableEq

/-- `AtomicBuffer.write` (cm_player.py, lines 43-61).  Returns the written
count together with the updated buffer.  numpy slice assignments are
translated to take/drop surgery on lists and `id_buffer[i] = h` to
`List.set`. -/
def AtomicBuffer.write (cfg : AudioCfg) (b : AtomicBuffer α) (data : List α) (idHash : ℤ) :
    ℕ × AtomicBuffer α :=
  let writeSize := min data.length (b.capacity - b.available)
  if writeSize = 0 then
    (0, b)
  else
    let e := b.writePos % b.capacity
    let firstPart := min writeSize (b.capacity - e)
    let buf1 := b.buffer.take b.writePos ++ data.take firstPart ++ b.buffer.drop (e + firstPart)
    let idb1 := b.idBuffer.set ((b.writePos / cfg.blockSize) % b.idBuffer.length) idHash
    let buf2 :=
      if firstPart < writeSize then
        (data.drop firstPart).take (writeSize - firstPart) ++ buf1.drop (writeSize - firstPart)
      else buf1
    let idb2 := if firstPart < writeSize then idb1.set 0 idHash else idb1
    (writeSize,
      { b with
        buffer := buf2
        idBuffer := idb2
        writePos := (b.writePos + writeSize) % b.capacity
        available := b.available + writeSize })

/-- `AtomicBuffer.read` (cm_player.py, lines 63-88).  The Python method
returns either `(None, None, loader_complete)` when nothing is available or
`(result, id_hash, is_final)`; both shapes are captured by the option-valued
triple.  The second component of the result is the updated buffer. -/
def AtomicBuffer.read (cfg : AudioCfg) (b : AtomicBuffer α) (requested : ℕ) :
    (Option (List α) × Option ℤ × Bool) × AtomicBuffer α :=
  if b.available = 0 then
    ((none, none, b.loaderComplete), b)
  else
    let readSize := min requested b.available
    let e := b.readPos % b.capacity
    let firstPart := min readSize (b.capacity - e)
    let result1 := (b.buffer.drop b.readPos).take (e + firstPart - b.readPos)
    let idHash := b.idBuffer.getD ((b.readPos / cfg.blockSize) % b.idBuffer.length) (-1)
    let remaining := readSize - firstPart
    let result := if 0 < remaining then result1 ++ b.buffer.take remaining else result1
    let newAvail := b.available - readSize
    let isFinal := b.loaderComplete && decide (newAvail = 0)
    ((some result, some idHash, isFinal),
      { b with readPos := (b.readPos + readSize) % b.capacity, available := newAvail })

/-- `AtomicBuffer.clear` (cm_player.py, lines 91-98): resets the markers and
the `loader_complete` flag, leaving the sample storage itself untouched. -/
def AtomicBuffer.clear (b : AtomicBuffer α) : AtomicBuffer α :=
  { b with writePos := 0, readPos := 0, available := 0, loaderComplete := false }

/-- The buffer state produced by `AtomicBuffer.__init__` for a given sample
storage and tag array: positions and `available` are zero and
`capacity = len(self.buffer)`. -/
def initBuffer (buf : List α) (idb : List ℤ) : AtomicBuffer α :=
  { buffer := buf
    idBuffer := idb
    writePos := 0
    readPos := 0
    capacity := buf.length
    available := 0
    loaderComplete := false }

/-- One operation on the ring buffer, as exercised by the filler thread
(`write`), the audio callback (`read`) and the supervisor (`clear`). -/
inductive BufOp (α : Type) where
  | write (data : List α) (idHash : ℤ)
  | read (requested : ℕ)
  | clear
  deriving DecidableEq

/-- Apply one `BufOp`, discarding the value returned to the caller. -/
def applyOp (cfg : AudioCfg) (b : AtomicBuffer α) : BufOp α → AtomicBuffer α
  | .write data idHash => (b.write cfg data idHash).2
  | .read requested => (b.read cfg requested).2
  | .clear => b.clear

/-- Run a sequence of buffer operations from a start state. -/
def runOps (cfg : AudioCfg) (b : AtomicBuffer α) : List (BufOp α) → AtomicBuffer α
  | [] => b
  | op :: ops => runOps cfg (applyOp cfg b op) ops

/-- Inductive invariant of the ring pointers: `available` never exceeds
`capacity` and `write_pos` agrees with `read_pos + available` modulo
`capacity`. -/
def BufInv (b : AtomicBuffer α) : Prop :=
  b.available ≤ b.capacity ∧
    Int.ModEq (b.capacity : ℤ) (b.writePos : ℤ) ((b.readPos : ℤ) + (b.available : ℤ))

/-- The ring-pointer facts the specification states as the buffer invariant,
in the form that actually holds on the code: `available` stays within
`[0, capacity]`, `(write_pos - read_pos)` is congruent to `available` modulo
`capacity`, and the literal equation `available = (write_pos - read_pos) mod
capacity` holds whenever the buffer is not exactly full. -/
def RingInvariant (b : AtomicBuffer α) : Prop :=
  b.available ≤ b.capacity
  ∧ ((b.writePos : ℤ) - (b.readPos : ℤ)) % (b.capacity : ℤ) = (b.available : ℤ) % (b.capacity : ℤ)
  ∧ (b.available < b.capacity →
      ((b.writePos : ℤ) - (b.readPos : ℤ)) % (b.capacity : ℤ) = (b.available : ℤ))

theorem bufInv_init (buf : List α) (idb : List ℤ) : BufInv (initBuffer buf idb) := by
  constructor
  · simp [initBuffer]
  · simp [initBuffer, Int.ModEq]

theorem bufInv_write (cfg : AudioCfg) (b : AtomicBuffer α) (data : List α) (idHash : ℤ)
    (h : BufInv b) : BufInv (b.write cfg data idHash).2 := by
  obtain ⟨h1, h2⟩ := h
  unfold AtomicBuffer.write
  by_cases hz : min data.length (b.capacity - b.available) = 0
  · simp only [hz, if_pos rfl]
    exact ⟨h1, h2⟩
  · simp only [if_neg hz]
    have hle : min data.length (b.capacity - b.available) ≤ b.capacity - b.available :=
      min_le_right _ _
    refine ⟨?_, ?_⟩
    · show b.available + min data.length (b.capacity - b.available) ≤ b.capacity
      omega
    set ws := min data.length (b.capacity - b.available) with hws
    show Int.ModEq (b.capacity : ℤ) (((b.writePos + ws) % b.capacity : ℕ) : ℤ)
      ((b.readPos : ℤ) + ((b.available + ws : ℕ) : ℤ))
    have hcast : (((b.writePos + ws) % b.capacity : ℕ) : ℤ)
        = ((b.writePos : ℤ) + (ws : ℤ)) % (b.capacity : ℤ) := by
      push_cast
      ring_nf
    rw [hcast]
    have hmod : Int.ModEq (b.capacity : ℤ)
        (((b.writePos : ℤ) + (ws : ℤ)) % (b.capacity : ℤ)) ((b.writePos : ℤ) + (ws : ℤ)) :=
      Int.emod_emod_of_dvd _ dvd_rfl
    refine hmod.trans ?_
    have := h2.add_right (ws : ℤ)
    refine this.trans ?_
    push_cast
    ring_nf
    exact Int.ModEq.refl _

theorem bufInv_read (cfg : AudioCfg) (b : AtomicBuffer α) (requested : ℕ)
    (h : BufInv b) : BufInv (b.read cfg requested).2 := by
  obtain ⟨h1, h2⟩ := h
  unfold AtomicBuffer.read
  by_cases hz : b.available = 0
  · simp only [hz, if_pos rfl]
    exact ⟨h1, by simpa [hz] using h2⟩
  · simp only [if_neg hz]
    have hle : min requested b.available ≤ b.available := min_le_right _ _
    refine ⟨?_, ?_⟩
    · show b.available - min requested b.available ≤ b.capacity
      omega
    set rs := min requested b.available with hrs
    show Int.ModEq (b.capacity : ℤ) (b.writePos : ℤ)
      ((((b.readPos + rs) % b.capacity : ℕ) : ℤ) + ((b.available - rs : ℕ) : ℤ))
    have hcast : (((b.readPos + rs) % b.capacity : ℕ) : ℤ)
        = ((b.readPos : ℤ) + (rs : ℤ)) % (b.capacity : ℤ) := by
      push_cast
      ring_nf
    have hsub : ((b.available - rs : ℕ) : ℤ) = (b.available : ℤ) - (rs : ℤ) := by
      have : rs ≤ b.available := hle
      push_cast [this]
      ring
    rw [hcast, hsub]
    have hmod : Int.ModEq (b.capacity : ℤ)
        (((b.readPos : ℤ) + (rs : ℤ)) % (b.capacity : ℤ)) ((b.readPos : ℤ) + (rs : ℤ)) :=
      Int.emod_emod_of_dvd _ dvd_rfl
    have hx : Int.ModEq (b.capacity : ℤ)
        ((((b.readPos : ℤ) + (rs : ℤ)) % (b.capacity : ℤ)) + ((b.available : ℤ) - (rs : ℤ)))
        (((b.readPos : ℤ) + (rs : ℤ)) + ((b.available : ℤ) - (rs : ℤ))) :=
      hmod.add_right _
    have hy : ((b.readPos : ℤ) + (rs : ℤ)) + ((b.available : ℤ) - (rs : ℤ))
        = (b.readPos : ℤ) + (b.available : ℤ) := by ring
    have h3 : Int.ModEq (b.capacity : ℤ) (b.writePos : ℤ)
        (((b.readPos : ℤ) + (rs : ℤ)) + ((b.available : ℤ) - (rs : ℤ))) := by
      rw [hy]
      exact h2
    exact h3.trans hx.symm

theorem bufInv_applyOp (cfg : AudioCfg) (b : AtomicBuffer α) (op : BufOp α)
    (h : BufInv b) : BufInv (applyOp cfg b op) := by
  cases op with
  | write data idHash => exact bufInv_write cfg b data idHash h
  | read requested => exact bufInv_read cfg b requested h
  | clear =>
      refine ⟨by simp [applyOp, AtomicBuffer.clear], ?_⟩
      simp [applyOp, AtomicBuffer.clear, Int.ModEq]

theorem bufInv_runOps (cfg : AudioCfg) (b : AtomicBuffer α) (ops : List (BufOp α))
    (h : BufInv b) : BufInv (runOps cfg b ops) := by
  induction ops generalizing b with
  | nil => exact h
  | cons op ops ih => exact ih _ (bufInv_applyOp cfg b op h)

theorem ringInvariant_of_bufInv (b : AtomicBuffer α) (h : BufInv b) : RingInvariant b := by
  obtain ⟨h1, h2⟩ := h
  have hsub : Int.ModEq (b.capacity : ℤ) ((b.writePos : ℤ) - (b.readPos : ℤ)) (b.available : ℤ) := by
    have := h2.sub_right (b.readPos : ℤ)
    simpa [add_sub_cancel_left] using this
  refine ⟨h1, hsub, ?_⟩
  intro hlt
  have hnn : (0 : ℤ) ≤ (b.available : ℤ) := Int.natCast_nonneg _
  have hlt2 : (b.available : ℤ) < (b.capacity : ℤ) := by exact_mod_cast hlt
  calc ((b.writePos : ℤ) - (b.readPos : ℤ)) % (b.capacity : ℤ)
      = (b.available : ℤ) % (b.capacity : ℤ) := hsub
    _ = (b.available : ℤ) := Int.emod_eq_of_lt hnn hlt2

/-- C3 (amended): every sequence of write, read and clear operations starting
from the initial buffer state preserves `0 ≤ available ≤ capacity`, and
`write_pos - read_pos` is congruent to `available` modulo `capacity`, with the
literal equality `(write_pos - read_pos) mod capacity = available` whenever the
buffer is not exactly full (when it is full, the left side is `0` while
`available = capacity`). -/
theorem ringBuffer_runOps_invariant (cfg : AudioCfg) (buf : List α) (idb : List ℤ)
    (ops : List (BufOp α)) : RingInvariant (runOps cfg (initBuffer buf idb) ops) :=
  ringInvariant_of_bufInv _ (bufInv_runOps cfg _ ops (bufInv_init buf idb))

theorem ringBuffer_runOps_invariant_witness :
    RingInvariant (runOps ⟨1⟩ (initBuffer ([0, 0, 0, 0] : List ℤ) [0, 0, 0, 0])
      [BufOp.write [1, 2] 7, BufOp.read 1]) :=
  ringBuffer_runOps_invariant ⟨1⟩ [0, 0, 0, 0] [0, 0, 0, 0] [BufOp.write [1, 2] 7, BufOp.read 1]

/-- C3 (counterexample): after a single write that fills the buffer exactly,
`write_pos = read_pos = 0` so `(write_pos - read_pos) mod capacity = 0`, while
`available = capacity = 4`; the claimed equation
`available = (write_pos - read_pos) mod capacity` is false in that state. -/
theorem ringBuffer_full_counterexample :
    ¬ (let b := runOps ⟨1⟩ (initBuffer ([0, 0, 0, 0] : List ℤ) [0, 0, 0, 0])
        [BufOp.write [1, 2, 3, 4] 7]
       ((b.writePos : ℤ) - (b.readPos : ℤ)) % (b.capacity : ℤ) = (b.available : ℤ)) := by
  decide

/-- Well-formedness facts about a buffer state that hold in every state the
player reaches: the storage length equals `capacity`, `available` never
exceeds it, and both positions are in range (`max capacity 1` covers the
degenerate zero-capacity buffer, whose positions stay `0`). -/
def AtomicBuffer.WF (b : AtomicBuffer α) : Prop :=
  b.buffer.length = b.capacity ∧ b.available ≤ b.capacity ∧
    b.readPos < max b.capacity 1 ∧ b.writePos < max b.capacity 1

/-- The behaviour the specification ascribes to `AtomicBuffer.read`: with data
available it returns exactly `min(requested, available)` samples together with
the tag of the block containing the pre-advance `read_pos`, and it advances
`read_pos` by the amount read; with nothing available it returns the EOS
triple `(none, none, true)` when `loader_complete` and the underrun triple
`(none, none, false)` otherwise. -/
def ReadSpec (cfg : AudioCfg) (b : AtomicBuffer α) (requested : ℕ) : Prop :=
  (0 < b.available →
    ∃ data idHash fin,
      (b.read cfg requested).1 = (some data, some idHash, fin)
      ∧ data.length = min requested b.available
      ∧ idHash = b.idBuffer.getD ((b.readPos / cfg.blockSize) % b.idBuffer.length) (-1)
      ∧ (b.read cfg requested).2.readPos
          = (b.readPos + min requested b.available) % b.capacity
      ∧ (b.read cfg requested).2.available = b.available - min requested b.available)
  ∧ (b.available = 0 → b.loaderComplete = true → (b.read cfg requested).1 = (none, none, true))
  ∧ (b.available = 0 → b.loaderComplete = false → (b.read cfg requested).1 = (none, none, false))

/-- C5: `AtomicBuffer.read` returns `min(requested, available)` samples when
data is available, the EOS triple on an empty buffer with `loader_complete`,
the underrun triple on an empty buffer otherwise, and the returned tag is the
one stored for the block containing `read_pos` before the position is
advanced. -/
theorem atomicBuffer_read_spec (cfg : AudioCfg) (b : AtomicBuffer α) (requested : ℕ)
    (hwf : b.WF) : ReadSpec cfg b requested := by
  obtain ⟨hlen, hav, hrp, hwp⟩ := hwf
  refine ⟨?_, ?_, ?_⟩
  · intro hpos
    have hne : ¬ b.available = 0 := by omega
    have hcap : 0 < b.capacity := by omega
    have hrp2 : b.readPos < b.capacity := by omega
    have he : b.readPos % b.capacity = b.readPos := Nat.mod_eq_of_lt hrp2
    rw [AtomicBuffer.read, if_neg hne]
    refine ⟨_, _, _, rfl, ?_, rfl, rfl, rfl⟩
    dsimp only
    rw [he]
    split
    · simp only [List.length_append, List.length_take, List.length_drop, hlen]
      omega
    · simp only [List.length_take, List.length_drop, hlen]
      omega
  · intro h0 hlc
    simp [AtomicBuffer.read, h0, hlc]
  · intro h0 hlc
    simp [AtomicBuffer.read, h0, hlc]

/-- A concrete well-formed buffer state used to witness C5: a wrapped read
(two available samples split around the end of storage). -/
def readDemoBuffer : AtomicBuffer ℤ :=
  { buffer := [10, 20, 30, 40]
    idBuffer := [5, 6]
    writePos := 1
    readPos := 3
    capacity := 4
    available := 2
    loaderComplete := true }

theorem atomicBuffer_read_spec_witness :
    AtomicBuffer.WF readDemoBuffer ∧ ReadSpec ⟨2⟩ readDemoBuffer 5 :=
  ⟨⟨by decide, by decide, by decide, by decide⟩,
    atomicBuffer_read_spec ⟨2⟩ readDemoBuffer 5 ⟨by decide, by decide, by decide, by decide⟩⟩

/-- C8: writing into a buffer whose `available` equals `capacity` returns `0`
and leaves the whole state (samples, tag array, positions, `available`)
unchanged — `write_size = min(len(data), capacity - available) = 0` takes the
early-return branch before any mutation. -/
theorem atomicBuffer_write_full_noop (cfg : AudioCfg) (b : AtomicBuffer α) (data : List α)
    (idHash : ℤ) (hfull : b.available = b.capacity) :
    b.write cfg data idHash = (0, b) := by
  have hz : b.capacity - b.available = 0 := by omega
  rw [AtomicBuffer.write]
  simp [hz]

/-- A concrete full buffer used to witness C8. -/
def fullDemoBuffer : AtomicBuffer ℤ :=
  { buffer := [8, 9]
    idBuffer := [3]
    writePos := 1
    readPos := 1
    capacity := 2
    available := 2
    loaderComplete := false }

theorem atomicBuffer_write_full_noop_witness :
    fullDemoBuffer.available = fullDemoBuffer.capacity ∧
      fullDemoBuffer.write ⟨1⟩ [7, 7, 7] 11 = (0, fullDemoBuffer) :=
  ⟨rfl, atomicBuffer_write_full_noop ⟨1⟩ fullDemoBuffer [7, 7, 7] 11 rfl⟩

/-- Peak of a block: `np.max(np.abs(data))` (cm_player.py, line 358), with `0`
for the empty block (callback blocks are non-empty, and all absolute values
are nonnegative, so the extra base does not change the result). -/
def peakOf (data : List ℚ) : ℚ :=
  (data.map (fun x => |x|)).foldr max 0

/-- `PeakLimiter.apply` (cm_player.py, lines 356-360): scale the block by
`threshold / peak` when the peak exceeds the threshold, else leave it as is.
Float samples are modelled exactly over `ℚ`. -/
def peakLimiterApply (threshold : ℚ) (data : List ℚ) : List ℚ :=
  if threshold < peakOf data then data.map (fun x => x * (threshold / peakOf data)) else data

theorem peakOf_nonneg (data : List ℚ) : 0 ≤ peakOf data := by
  induction data with
  | nil => simp [peakOf]
  | cons x xs ih =>
      simp only [peakOf, List.map_cons, List.foldr_cons]
      exact le_trans ih (le_max_right _ _)

theorem peakOf_map_mul (data : List ℚ) (c : ℚ) (hc : 0 ≤ c) :
    peakOf (data.map (fun x => x * c)) = peakOf data * c := by
  induction data with
  | nil => simp [peakOf]
  | cons x xs ih =>
      simp only [peakOf, List.map_cons, List.foldr_cons] at ih ⊢
      rw [abs_mul, abs_of_nonneg hc, ih, max_mul_of_nonneg _ _ hc]

/-- C9: `PeakLimiter.apply` is idempotent (over exact sample arithmetic), and
a block whose peak does not exceed the threshold is returned unchanged. -/
theorem peakLimiter_idempotent (threshold : ℚ) (data : List ℚ) (ht : 0 < threshold) :
    peakLimiterApply threshold (peakLimiterApply threshold data)
        = peakLimiterApply threshold data
    ∧ (peakOf data ≤ threshold → peakLimiterApply threshold data = data) := by
  constructor
  · by_cases hp : threshold < peakOf data
    · have hppos : 0 < peakOf data := lt_trans ht hp
      have hcnn : 0 ≤ threshold / peakOf data := by positivity
      have hpeak2 : peakOf (peakLimiterApply threshold data) = threshold := by
        rw [peakLimiterApply, if_pos hp, peakOf_map_mul data _ hcnn]
        field_simp
      have hstop : ¬ threshold < peakOf (peakLimiterApply threshold data) := by
        rw [hpeak2]
        exact lt_irrefl _
      conv_lhs => rw [peakLimiterApply]
      rw [if_neg hstop]
    · have hid : peakLimiterApply threshold data = data := by
        rw [peakLimiterApply, if_neg hp]
      rw [hid]
      exact hid
  · intro hle
    rw [peakLimiterApply, if_neg (not_lt.mpr hle)]

theorem peakLimiter_idempotent_witness :
    (0 : ℚ) < 1 / 2
    ∧ (peakLimiterApply (1 / 2) (peakLimiterApply (1 / 2) [1, -2])
          = peakLimiterApply (1 / 2) [1, -2]
       ∧ (peakOf [1, -2] ≤ 1 / 2 → peakLimiterApply (1 / 2) [1, -2] = [1, -2])) :=
  ⟨by norm_num, peakLimiter_idempotent (1 / 2) [1, -2] (by norm_num)⟩

/-- Events the audio callback can push onto the player status queue
(`_audio_callback`, cm_player.py, lines 260-308).  The payload strings of the
Python messages are reduced to their identifying parts. -/
inductive CallbackEvent where
  | deviceStatus
  | buffering (songId : Option String) (percent : ℕ)
  | reachedEnd
  | playbackComplete
  | playing (songId : String) (title : String)
  deriving DecidableEq

/-- The player attributes read or written by `_audio_callback`.  Python's
initial `current_song_id = -1` sentinel is modelled as `none`; a string id is
`some`.  `song_hashes` and `song_list` are the two lookup dictionaries. -/
structure PlayerState where
  paused : Bool
  prefillComplete : Bool
  currentVolume : ℚ
  limiterThreshold : ℚ
  currentSongId : Option String
  songHashes : List (ℤ × String)
  songList : List (String × String)
  buffer : AtomicBuffer ℚ
  deriving DecidableEq

/-- The observable outcome of one callback invocation: updated player state,
status-queue events in emission order, the produced output block, and whether
`sd.CallbackStop` was raised. -/
structure CallbackResult where
  state : PlayerState
  events : List CallbackEvent
  output : List ℚ
  stopped : Bool
  deriving DecidableEq

/-- `AudioPlayer._audio_callback` (cm_player.py, lines 260-308), translated
branch by branch: silence while paused or before prefill; a device-status
warning event when the flag is set; a ring read of `frames`; on no data the
prefill gate is cleared and a buffering event emitted; otherwise the data is
copied and zero-padded, `CallbackStop` is raised on the final read, a song
transition emits a playing event, and volume plus peak limiting are applied. -/
def audioCallback (cfg : AudioCfg) (p : PlayerState) (frames : ℕ) (statusFlag : Bool) :
    CallbackResult :=
  if p.paused || !p.prefillComplete then
    { state := p, events := [], output := List.replicate frames 0, stopped := false }
  else
    let statusEvents := if statusFlag then [CallbackEvent.deviceStatus] else []
    let rd := p.buffer.read cfg frames
    let p1 := { p with buffer := rd.2 }
    let songId := match rd.1.2.1 with
      | none => none
      | some h => p.songHashes.lookup h
    match rd.1.1 with
    | none =>
        { state := { p1 with prefillComplete := false }
          events := statusEvents ++ [CallbackEvent.buffering p.currentSongId 0]
          output := List.replicate frames 0
          stopped := false }
    | some data =>
        let out :=
          if data.length ≤ frames then data ++ List.replicate (frames - data.length) 0
          else data.take frames
        if rd.1.2.2 then
          { state := p1
            events := statusEvents ++ [CallbackEvent.reachedEnd, CallbackEvent.playbackComplete]
            output := out
            stopped := true }
        else
          let hit := match songId with
            | some sid => if p.currentSongId = some sid then none else some sid
            | none => none
          let p2 := match hit with
            | some sid => { p1 with currentSongId := some sid }
            | none => p1
          let playEvents := match hit with
            | some sid =>
                [CallbackEvent.playing sid
                  ((p.songList.lookup sid).getD (String.append (String.append "[Unknown:" sid) "]"))]
            | none => []
          { state := p2
            events := statusEvents ++ playEvents
            output := peakLimiterApply p.limiterThreshold (out.map (fun x => x * p.currentVolume))
            stopped := false }

/-- The callback behaviour the code actually implements on a read that
returns no data: regardless of `loader_complete`, the prefill gate is
cleared, a buffering event is emitted, silence is produced, and the callback
is neither stopped nor does it emit `playback:complete`. -/
def EmptyReadBehavior (cfg : AudioCfg) (p : PlayerState) (frames : ℕ) (statusFlag : Bool) :
    Prop :=
  (audioCallback cfg p frames statusFlag).state.prefillComplete = false
  ∧ (audioCallback cfg p frames statusFlag).stopped = false
  ∧ (audioCallback cfg p frames statusFlag).events
      = (if statusFlag then [CallbackEvent.deviceStatus] else [])
        ++ [CallbackEvent.buffering p.currentSongId 0]
  ∧ CallbackEvent.playbackComplete ∉ (audioCallback cfg p frames statusFlag).events
  ∧ (audioCallback cfg p frames statusFlag).output = List.replicate frames 0

/-- C1 (amended): whenever the callback runs unpaused with the prefill gate
set and the ring read returns no data — including when `loader_complete` is
already true — the code clears `prefill_complete`, emits a buffering event and
keeps the callback alive; it never emits `playback:complete` in that
invocation.  (`playback:complete` with `CallbackStop` is only reached by an
invocation whose read returns data flagged as final.) -/
theorem audioCallback_empty_read_reprefills (cfg : AudioCfg) (p : PlayerState) (frames : ℕ)
    (statusFlag : Bool) (hp : p.paused = false) (hpre : p.prefillComplete = true)
    (hav : p.buffer.available = 0) :
    EmptyReadBehavior cfg p frames statusFlag := by
  have hread : p.buffer.read cfg frames = ((none, none, p.buffer.loaderComplete), p.buffer) := by
    rw [AtomicBuffer.read, if_pos hav]
  have hcb : audioCallback cfg p frames statusFlag =
      { state := { p with buffer := p.buffer, prefillComplete := false }
        events := (if statusFlag then [CallbackEvent.deviceStatus] else [])
          ++ [CallbackEvent.buffering p.currentSongId 0]
        output := List.replicate frames 0
        stopped := false } := by
    rw [audioCallback, if_neg (by simp [hp, hpre])]
    simp only [hread]
  refine ⟨?_, ?_, ?_, ?_, ?_⟩ <;> rw [hcb]
  cases statusFlag <;> simp

/-- The buffer state for the C1 counterexample: empty ring with
`loader_complete = true`. -/
def drainedBuffer : AtomicBuffer ℚ :=
  { buffer := [0, 0]
    idBuffer := [-1]
    writePos := 0
    readPos := 0
    capacity := 2
    available := 0
    loaderComplete := true }

/-- The player state for the C1 counterexample: not paused, prefill gate set,
ring empty, loader complete — exactly the state the claim speaks about. -/
def drainedPlayer : PlayerState :=
  { paused := false
    prefillComplete := true
    currentVolume := 1
    limiterThreshold := 97 / 100
    currentSongId := none
    songHashes := []
    songList := []
    buffer := drainedBuffer }

/-- C1 (counterexample): in a state where playback is not paused, prefill is
complete, and the ring read returns no data while `loader_complete` is true,
the callback does NOT emit `playback:complete` and does NOT stop; it clears
`prefill_complete` and re-enters the buffering state instead, contradicting
the claim. -/
theorem audioCallback_drained_counterexample :
    (drainedPlayer.buffer.read ⟨2⟩ 2).1 = (none, none, true)
    ∧ (audioCallback ⟨2⟩ drainedPlayer 2 false).stopped = false
    ∧ (audioCallback ⟨2⟩ drainedPlayer 2 false).state.prefillComplete = false
    ∧ CallbackEvent.playbackComplete ∉ (audioCallback ⟨2⟩ drainedPlayer 2 false).events := by
  refine ⟨by decide, by decide, by decide, by decide⟩

theorem audioCallback_empty_read_witness :
    (drainedPlayer.paused = false ∧ drainedPlayer.prefillComplete = true
      ∧ drainedPlayer.buffer.available = 0)
    ∧ EmptyReadBehavior ⟨2⟩ drainedPlayer 3 true :=
  ⟨⟨rfl, rfl, rfl⟩,
    audioCallback_empty_read_reprefills ⟨2⟩ drainedPlayer 3 true rfl rfl rfl⟩

/-- The loader-side state touched by one worker iteration
(`_worker_thread_func`, cm_loader.py, lines 222-260): the per-song
`ready_events` map, the `processed_songs` record, and the `complete_event`
flag. -/
structure WorkerState where
  readyEvents : List (String × Bool)
  processedSongs : List String
  completeEvent : Bool
  deriving DecidableEq

/-- `self.ready_events[song_id].set()`. -/
def setEvent (events : List (String × Bool)) (songId : String) : List (String × Bool) :=
  events.map (fun ev => if ev.1 = songId then (ev.1, true) else ev)

/-- Whether `self.ready_events[song_id]` is set. -/
def eventIsSet (events : List (String × Bool)) (songId : String) : Bool :=
  (events.lookup songId).getD false

/-- `_process_song` (cm_loader.py, lines 262-319) wraps its whole body in
try/except and returns `False` when any step raises (download, decode, fade,
join or enqueue); the outcome of those external steps is abstracted as
`stepsRaise`. On the failure path no loader state is touched at all — in
particular `ready_events[song_id]` is not set. -/
def processSongResult (stepsRaise : Bool) : Bool :=
  !stepsRaise

/-- One worker iteration on a dequeued job (cm_loader.py, lines 237-255):
mark the song processed, run `_process_song`, set the song's ready event only
on success (`if success:`), and set `complete_event` for a final job when
repeat is off. -/
def workerHandleJob (repeatMode : Bool) (st : WorkerState) (songId : String)
    (isFinalSong : Bool) (stepsRaise : Bool) : WorkerState :=
  let st1 := { st with processedSongs := st.processedSongs ++ [songId] }
  let st2 :=
    if processSongResult stepsRaise then
      { st1 with readyEvents := setEvent st1.readyEvents songId }
    else st1
  if isFinalSong && !repeatMode then { st2 with completeEvent := true } else st2

/-- A successor whose `prevId` equals `songId` leaves
`self.ready_events[prevId].wait()` (cm_loader.py, line 299) exactly when the
event is set; the wait has no timeout. -/
def successorReleased (st : WorkerState) (prevId : String) : Bool :=
  eventIsSet st.readyEvents prevId

/-- C2 (code evaluated at the failing input): with jobs A, B, C admitted in
order and B's processing raising, the worker leaves `ready_events["B"]` unset
(its event map is unchanged), so the successor C waiting on
`ready_events["B"].wait()` is never released — the claim that the scheduler
sets the failed job's event anyway does not hold on this code. -/
theorem workerFailure_leaves_event_unset :
    let st0 : WorkerState :=
      { readyEvents := [("A", true), ("B", false), ("C", false)]
        processedSongs := ["A"]
        completeEvent := false }
    let st1 := workerHandleJob false st0 "B" false true
    st1.readyEvents = st0.readyEvents
    ∧ eventIsSet st1.readyEvents "B" = false
    ∧ successorReleased st1 "B" = false := by
  refine ⟨by decide, by decide, by decide⟩

/-- Python slice `clip[:-f]` on a list; note `a[:-0]` is `a[:0]`, the empty
list. -/
def sliceDropLast (l : List α) (f : ℕ) : List α :=
  if f = 0 then [] else l.take (l.length - f)

/-- Python slice `clip[f:-f]` on a list (empty when `f = 0`, since `a[0:-0]`
is `a[0:0]`). -/
def sliceMiddle (l : List α) (f : ℕ) : List α :=
  if f = 0 then [] else (l.drop f).take (l.length - f - f)

/-- Python slice `clip[-f:]` on a list (the whole list when `f = 0`). -/
def sliceLast (l : List α) (f : ℕ) : List α :=
  if f = 0 then l else l.drop (l.length - f)

/-- numpy elementwise addition of the previous tail and the clip head. -/
def zipAdd (a b : List ℚ) : List ℚ :=
  List.zipWith (· + ·) a b

/-- `SongLoader._apply_crossfade` (cm_loader.py, lines 472-491): with no
previous tail, the full clip when the song is flagged final, else
`clip[:-F]`; with a previous tail, the summed crossfade followed by
`clip[F:]` when final with repeat off, else by `clip[F:-F]`. -/
def applyCrossfade (repeatMode : Bool) (previousTail : Option (List ℚ)) (clip : List ℚ)
    (fadeSamples : ℕ) (isFinalSong : Bool) : List ℚ :=
  match previousTail with
  | none => if isFinalSong then clip else sliceDropLast clip fadeSamples
  | some tail =>
      let crossfade := zipAdd tail (clip.take fadeSamples)
      if isFinalSong && !repeatMode then crossfade ++ clip.drop fadeSamples
      else crossfade ++ sliceMiddle clip fadeSamples

/-- C4 (counterexample): a first-ever clip (`previous_tail = None`) that is
flagged final while repeat mode is on keeps its fade-out tail — the code
returns the whole clip — whereas the claim prescribes `clip[:-F]` for every
join without a predecessor tail (its final-clip exception applies only with
repeat off). -/
theorem applyCrossfade_firstFinal_counterexample :
    applyCrossfade true none ([1, 2, 3, 4] : List ℚ) 1 true
      ≠ sliceDropLast ([1, 2, 3, 4] : List ℚ) 1 := by
  decide

/-- The join outputs of `_apply_crossfade`, stated in the claim's vocabulary:
no tail and not final gives `clip[:-F]`; no tail and final gives the head
plus the retained tail (the whole clip) regardless of repeat mode; a tail
with no terminal exception gives `(tail + clip[:F]) ++ clip[F:-F]`; a tail on
the final song with repeat off additionally appends `clip[-F:]`. -/
def CrossfadeSpec (repeatMode : Bool) (previousTail : Option (List ℚ)) (clip : List ℚ)
    (fadeSamples : ℕ) (isFinalSong : Bool) : Prop :=
  (previousTail = none → isFinalSong = false →
      applyCrossfade repeatMode previousTail clip fadeSamples isFinalSong
        = sliceDropLast clip fadeSamples)
  ∧ (previousTail = none → isFinalSong = true →
      applyCrossfade repeatMode previousTail clip fadeSamples isFinalSong
        = sliceDropLast clip fadeSamples ++ sliceLast clip fadeSamples)
  ∧ (∀ tail, previousTail = some tail → (isFinalSong = false ∨ repeatMode = true) →
      applyCrossfade repeatMode previousTail clip fadeSamples isFinalSong
        = zipAdd tail (clip.take fadeSamples) ++ sliceMiddle clip fadeSamples)
  ∧ (∀ tail, previousTail = some tail → isFinalSong = true → repeatMode = false →
      applyCrossfade repeatMode previousTail clip fadeSamples isFinalSong
        = zipAdd tail (clip.take fadeSamples) ++ sliceMiddle clip fadeSamples
          ++ sliceLast clip fadeSamples)

theorem sliceDropLast_append_sliceLast (l : List α) (f : ℕ) :
    sliceDropLast l f ++ sliceLast l f = l := by
  by_cases hf : f = 0
  · simp [sliceDropLast, sliceLast, hf]
  · rw [sliceDropLast, if_neg hf, sliceLast, if_neg hf]
    exact List.take_append_drop _ _

theorem drop_eq_sliceMiddle_append_sliceLast (l : List α) (f : ℕ) (hf : 2 * f ≤ l.length) :
    l.drop f = sliceMiddle l f ++ sliceLast l f := by
  by_cases h0 : f = 0
  · simp [sliceMiddle, sliceLast, h0]
  · rw [sliceMiddle, if_neg h0, sliceLast, if_neg h0]
    have h1 : (l.drop f).take (l.length - f - f) ++ (l.drop f).drop (l.length - f - f)
        = l.drop f := List.take_append_drop _ _
    have h2 : (l.drop f).drop (l.length - f - f) = l.drop (l.length - f) := by
      rw [List.drop_drop]
      congr 1
      omega
    rw [← h2]
    exact h1.symm

/-- C4 (amended): the join emitted by `_apply_crossfade` is `clip[:-F]` for a
clip without a predecessor tail that is not flagged final; the full clip
(head plus retained fade-out tail) for a final clip without a predecessor
tail, regardless of repeat mode; `(tail + clip[:F]) ++ clip[F:-F]` for a clip
with a predecessor tail that is not terminal; and the same with `clip[-F:]`
appended for the terminal clip (final, repeat off) with a predecessor tail. -/
theorem applyCrossfade_spec (repeatMode : Bool) (previousTail : Option (List ℚ))
    (clip : List ℚ) (fadeSamples : ℕ) (isFinalSong : Bool)
    (hf : 2 * fadeSamples ≤ clip.length) :
    CrossfadeSpec repeatMode previousTail clip fadeSamples isFinalSong := by
  refine ⟨?_, ?_, ?_, ?_⟩
  · intro hnone hfin
    subst hnone
    subst hfin
    simp [applyCrossfade]
  · intro hnone hfin
    subst hnone
    subst hfin
    simp only [applyCrossfade, if_pos]
    exact (sliceDropLast_append_sliceLast clip fadeSamples).symm
  · intro tail htail hcase
    subst htail
    rcases hcase with hfin | hrep
    · subst hfin
      simp [applyCrossfade]
    · subst hrep
      simp [applyCrossfade]
  · intro tail htail hfin hrep
    subst htail
    subst hfin
    subst hrep
    simp only [applyCrossfade, Bool.not_false, Bool.and_self, if_pos]
    rw [drop_eq_sliceMiddle_append_sliceLast clip fadeSamples hf, List.append_assoc]

theorem applyCrossfade_spec_witness :
    2 * 1 ≤ ([1, 2, 3, 4] : List ℚ).length
    ∧ CrossfadeSpec false (some [5]) ([1, 2, 3, 4] : List ℚ) 1 true :=
  ⟨by decide, applyCrossfade_spec false (some [5]) [1, 2, 3, 4] 1 true (by decide)⟩

/-- A playlist entry as the scheduler sees it; only the id takes part in the
admission logic of `_add_songs_to_queue`. -/
structure Song where
  id : String
  deriving DecidableEq

/-- The candidate list built by `_add_songs_to_queue` (cm_loader.py, lines
155-158): songs whose id is neither in `processed_songs` nor on the
processing queue (whose items pair a song with its `is_final` flag). -/
def candidateSongs (songs : List Song) (processedSongs : List String)
    (processingQueue : List (Song × Bool)) : List Song :=
  songs.filter (fun song =>
    !(processedSongs.contains song.id)
      && processingQueue.all (fun item => item.1.id != song.id))

/-- `recent_songs` of the shuffle branch (cm_loader.py, lines 166-169). -/
def recentOf (lastCycleSongs : List String) (cands : List Song) : List Song :=
  cands.filter (fun song => lastCycleSongs.contains song.id)

/-- `other_songs` of the shuffle branch (cm_loader.py, lines 170-173). -/
def othersOf (lastCycleSongs : List String) (cands : List Song) : List Song :=
  cands.filter (fun song => !(lastCycleSongs.contains song.id))

/-- The batch admitted by `_add_songs_to_queue` with shuffle enabled
(cm_loader.py, lines 175-187): the two shuffled parts are concatenated as
`others ++ recent` and the first `min(max_workers * 2, len(unprocessed))`
entries are enqueued.  The outcomes of the two `random.shuffle` calls enter
as the already-shuffled lists. -/
def admittedBatch (maxWorkers : ℕ) (shuffledOthers shuffledRecent : List Song) : List Song :=
  let unprocessed := shuffledOthers ++ shuffledRecent
  unprocessed.take (min (maxWorkers * 2) unprocessed.length)

/-- What the claim states about one admission evaluation under shuffle: the
candidate set is exactly the unprocessed-and-not-queued songs, the batch is a
permutation of at most `2 * max_workers` candidates (here with its exact
size), and it splits as non-recent candidates followed by recent ones. -/
def AdmissionSpec (songs : List Song) (processedSongs : List String)
    (processingQueue : List (Song × Bool)) (lastCycleSongs : List String)
    (maxWorkers : ℕ) (shuffledOthers shuffledRecent : List Song) : Prop :=
  (∀ song, song ∈ candidateSongs songs processedSongs processingQueue ↔
      song ∈ songs ∧ ¬ song.id ∈ processedSongs
        ∧ ∀ item ∈ processingQueue, item.1.id ≠ song.id)
  ∧ (admittedBatch maxWorkers shuffledOthers shuffledRecent).length
      = min (maxWorkers * 2) (candidateSongs songs processedSongs processingQueue).length
  ∧ (admittedBatch maxWorkers shuffledOthers shuffledRecent).length ≤ maxWorkers * 2
  ∧ (admittedBatch maxWorkers shuffledOthers shuffledRecent).Subperm
      (candidateSongs songs processedSongs processingQueue)
  ∧ ∃ bo br, admittedBatch maxWorkers shuffledOthers shuffledRecent = bo ++ br
      ∧ (∀ song ∈ bo, ¬ song.id ∈ lastCycleSongs)
      ∧ (∀ song ∈ br, song.id ∈ lastCycleSongs)

theorem othersOf_append_recentOf_perm (lastCycleSongs : List String) (cands : List Song) :
    (othersOf lastCycleSongs cands ++ recentOf lastCycleSongs cands).Perm cands := by
  refine (List.perm_append_comm).trans ?_
  exact List.filter_append_perm _ cands

/-- C6: on an admission evaluation with shuffle enabled, the candidate set is
exactly the songs neither processed this cycle nor queued; for every outcome
of the two random shuffles the admitted batch is a permutation of at most
`2 * worker_count` candidates, and every admitted candidate from
`last_cycle_songs` is placed after all admitted candidates outside it. -/
theorem schedulerAdmission_spec (songs : List Song) (processedSongs : List String)
    (processingQueue : List (Song × Bool)) (lastCycleSongs : List String)
    (maxWorkers : ℕ) (shuffledOthers shuffledRecent : List Song)
    (hO : shuffledOthers.Perm
      (othersOf lastCycleSongs (candidateSongs songs processedSongs processingQueue)))
    (hR : shuffledRecent.Perm
      (recentOf lastCycleSongs (candidateSongs songs processedSongs processingQueue))) :
    AdmissionSpec songs processedSongs processingQueue lastCycleSongs maxWorkers
      shuffledOthers shuffledRecent := by
  have hU : (shuffledOthers ++ shuffledRecent).Perm
      (candidateSongs songs processedSongs processingQueue) :=
    (hO.append hR).trans (othersOf_append_recentOf_perm lastCycleSongs _)
  have hUlen : (shuffledOthers ++ shuffledRecent).length
      = (candidateSongs songs processedSongs processingQueue).length := hU.length_eq
  refine ⟨?_, ?_, ?_, ?_, ?_⟩
  · intro song
    simp [candidateSongs, List.mem_filter]
  · simp only [admittedBatch, List.length_take, hUlen]
    omega
  · simp only [admittedBatch, List.length_take]
    omega
  · exact ((List.take_sublist _ _).subperm).trans hU.subperm
  · refine ⟨(shuffledOthers.take (min (maxWorkers * 2)
        (shuffledOthers ++ shuffledRecent).length)),
      (shuffledRecent.take (min (maxWorkers * 2) (shuffledOthers ++ shuffledRecent).length
        - shuffledOthers.length)), ?_, ?_, ?_⟩
    · exact List.take_append_eq_append_take
    · intro song hs
      have hmem : song ∈ othersOf lastCycleSongs
          (candidateSongs songs processedSongs processingQueue) :=
        hO.subset (List.take_subset _ _ hs)
      simp only [othersOf, List.mem_filter] at hmem
      simpa using hmem.2
    · intro song hs
      have hmem : song ∈ recentOf lastCycleSongs
          (candidateSongs songs processedSongs processingQueue) :=
        hR.subset (List.take_subset _ _ hs)
      simp only [recentOf, List.mem_filter] at hmem
      simpa using hmem.2

theorem schedulerAdmission_spec_witness :
    ([Song.mk "d"].Perm
        (othersOf ["c"]
          (candidateSongs [Song.mk "a", Song.mk "b", Song.mk "c", Song.mk "d"] ["a"]
            [(Song.mk "b", false)]))
      ∧ [Song.mk "c"].Perm
          (recentOf ["c"]
            (candidateSongs [Song.mk "a", Song.mk "b", Song.mk "c", Song.mk "d"] ["a"]
              [(Song.mk "b", false)])))
    ∧ AdmissionSpec [Song.mk "a", Song.mk "b", Song.mk "c", Song.mk "d"] ["a"]
        [(Song.mk "b", false)] ["c"] 1 [Song.mk "d"] [Song.mk "c"] :=
  ⟨⟨by decide, by decide⟩,
    schedulerAdmission_spec [Song.mk "a", Song.mk "b", Song.mk "c", Song.mk "d"] ["a"]
      [(Song.mk "b", false)] ["c"] 1 [Song.mk "d"] [Song.mk "c"] (by decide) (by decide)⟩

/-- Fuel-indexed splitter over character lists: one step of Python
`str.split(sep)` for a non-empty separator, scanning left to right and
consuming the separator at each match.  The fuel starts at the string length
and dominates every recursive call. -/
def splitStep (pat : List Char) : ℕ → List Char → List Char → List (List Char)
  | _, [], acc => [acc.reverse]
  | 0, rest, acc => [acc.reverse ++ rest]
  | fuel + 1, c :: rest, acc =>
      if pat.isPrefixOf (c :: rest) then
        acc.reverse :: splitStep pat fuel (rest.drop (pat.length - 1)) []
      else
        splitStep pat fuel rest (c :: acc)

/-- Python `s.split(sep)` for a non-empty separator, on strings. -/
def pySplit (s sep : String) : List String :=
  (splitStep sep.toList s.toList.length s.toList []).map (fun cs => String.mk cs)

/-- Python `sub in s` on strings. -/
def pyContainsStr (s sub : String) : Bool :=
  s.toList.tails.any (fun t => sub.toList.isPrefixOf t)

/-- A playlist-file duration value: version 2 stores integer seconds, version
1 files may carry strings. -/
inductive JsonDur where
  | int (n : ℤ)
  | str (s : String)
  deriving DecidableEq

/-- A playlist record as `_load_and_upgrade_playlist` sees it.  Fields the
migration passes never read or write (`title`, `artists`) are omitted;
`id`/`url` are `none` when the JSON object lacks the key. -/
structure SongRec where
  id : Option String
  url : Option String
  duration : Option JsonDur
  deriving DecidableEq

/-- Video-id extraction of the v1-to-v2 pass (cm_controller.py, lines
716-728): `url.split("v=")[-1].split("&")[0]` guarded by the prefix
containment test; a falsy result (prefix absent, or empty id) yields `none`
and the song is skipped.  The prefix constant
`AudioConfig.YOUTUBE_MUSIC_VIDEO_URL_PREFIX` is not part of src/ and is
passed in as `pre`. -/
def extractVideoId (pre url : String) : Option String :=
  if pyContainsStr url pre then
    let lastPart := (pySplit url "v=").getLastD url
    let vid := (pySplit lastPart "&").headD lastPart
    if vid = "" then none else some vid
  else none

/-- The per-song body of the v1 upgrade loop (cm_controller.py, lines
715-734): when the record has a url whose id extracts, set `id`, pop `url`
and flag `needs_upgrade`; otherwise leave the record alone. -/
def upgradeUrlSong (pre : String) (song : SongRec) : SongRec × Bool :=
  match song.url with
  | none => (song, false)
  | some url =>
      match extractVideoId pre url with
      | none => (song, false)
      | some vid => ({ song with id := some vid, url := none }, true)

/-- The colon branch of the duration conversion (cm_controller.py, lines
741-763): split on `:`, H:M:S and M:S convert via Python `int` (modelled by
the parameter `pyInt`, `none` standing for `ValueError`), every failure or
unexpected shape defaults to 180. -/
def convertColonDuration (pyInt : String → Option ℤ) (s : String) : ℤ :=
  match pySplit s ":" with
  | [h, m, sec] =>
      match pyInt h, pyInt m, pyInt sec with
      | some a, some b, some c => a * 3600 + b * 60 + c
      | _, _, _ => 180
  | [m, sec] =>
      match pyInt m, pyInt sec with
      | some b, some c => b * 60 + c
      | _, _ => 180
  | _ => 180

/-- The full duration conversion for a string duration (cm_controller.py,
lines 740-772): the colon branch when the string contains `:`, otherwise
`int(duration)` with the 180 default on failure. -/
def convertDuration (pyInt : String → Option ℤ) (s : String) : ℤ :=
  if s.toList.contains ':' then convertColonDuration pyInt s
  else (pyInt s).getD 180

/-- The per-song body of the duration loop (cm_controller.py, lines
737-772): every string duration is replaced by an integer and flags
`needs_upgrade`; non-string durations are untouched. -/
def upgradeDurationSong (pyInt : String → Option ℤ) (song : SongRec) : SongRec × Bool :=
  match song.duration with
  | some (JsonDur.str s) =>
      ({ song with duration := some (JsonDur.int (convertDuration pyInt s)) }, true)
  | _ => (song, false)

/-- The version-1 detection (cm_controller.py, line 710): the playlist is
non-empty and its first record has `url` but no `id`. -/
def isV1Playlist (songs : List SongRec) : Bool :=
  match songs with
  | [] => false
  | s0 :: _ => s0.url.isSome && s0.id.isNone

/-- Result of `_load_and_upgrade_playlist`: the upgraded records and the
`needs_upgrade` flag that decides whether the file is rewritten. -/
structure MigrationResult where
  songs : List SongRec
  rewritten : Bool
  deriving DecidableEq

/-- `Controller._load_and_upgrade_playlist` (cm_controller.py, lines
698-795), restricted to the two passes that run before the conditional save:
the v1 url-to-id upgrade (only when the file is detected as v1) and the
duration normalization.  The later validation loop runs after the save and
never touches the file. -/
def loadAndUpgrade (pre : String) (pyInt : String → Option ℤ) (songs : List SongRec) :
    MigrationResult :=
  let afterUrl :=
    if isV1Playlist songs then songs.map (upgradeUrlSong pre)
    else songs.map (fun s => (s, false))
  let songs1 := afterUrl.map Prod.fst
  let flag1 := afterUrl.any Prod.snd
  let afterDur := songs1.map (upgradeDurationSong pyInt)
  { songs := afterDur.map Prod.fst, rewritten := flag1 || afterDur.any Prod.snd }

/-- The playlist file after one load: `_save_upgraded_playlist` rewrites it
with the upgraded records iff `needs_upgrade` was set; otherwise the file is
untouched. -/
def migrateFile (pre : String) (pyInt : String → Option ℤ) (file : List SongRec) :
    List SongRec :=
  let r := loadAndUpgrade pre pyInt file
  if r.rewritten then r.songs else file

/-- A record whose duration is not a string (so the duration pass skips it). -/
def DurClean (song : SongRec) : Prop :=
  ∀ d, song.duration ≠ some (JsonDur.str d)

/-- A record whose url, if any, does not extract (so the url pass skips it). -/
def UrlStable (pre : String) (song : SongRec) : Prop :=
  ∀ u, song.url = some u → extractVideoId pre u = none

theorem urlStable_flag_false (pre : String) (s : SongRec) (h : UrlStable pre s) :
    upgradeUrlSong pre s = (s, false) := by
  cases hu : s.url with
  | none => simp [upgradeUrlSong, hu]
  | some u => simp [upgradeUrlSong, hu, h u hu]

theorem upgradeUrlSong_urlStable (pre : String) (s : SongRec) :
    UrlStable pre (upgradeUrlSong pre s).1 := by
  cases hu : s.url with
  | none =>
      intro u hu2
      simp [upgradeUrlSong, hu] at hu2
  | some u =>
      cases hx : extractVideoId pre u with
      | none =>
          intro v hv
          simp only [upgradeUrlSong, hu, hx] at hv
          cases hv
          exact hx
      | some vid =>
          intro v hv
          simp only [upgradeUrlSong, hu, hx] at hv
          cases hv

theorem upgradeUrlSong_duration (pre : String) (s : SongRec) :
    (upgradeUrlSong pre s).1.duration = s.duration := by
  cases hu : s.url with
  | none => simp [upgradeUrlSong, hu]
  | some u =>
      cases hx : extractVideoId pre u with
      | none => simp [upgradeUrlSong, hu, hx]
      | some vid => simp [upgradeUrlSong, hu, hx]

theorem upgradeDurationSong_eq_of_clean (pyInt : String → Option ℤ) (s : SongRec)
    (h : DurClean s) : upgradeDurationSong pyInt s = (s, false) := by
  cases hd : s.duration with
  | none => simp [upgradeDurationSong, hd]
  | some d =>
      cases d with
      | int n => simp [upgradeDurationSong, hd]
      | str t => exact absurd hd (h t)

theorem upgradeDurationSong_clean (pyInt : String → Option ℤ) (s : SongRec) :
    DurClean (upgradeDurationSong pyInt s).1 := by
  cases hd : s.duration with
  | none =>
      intro d hc
      simp only [upgradeDurationSong, hd] at hc
      simp [hd] at hc
  | some dv =>
      cases dv with
      | int n =>
          intro d hc
          simp only [upgradeDurationSong, hd] at hc
          simp [hd] at hc
      | str t =>
          intro d hc
          simp only [upgradeDurationSong, hd] at hc
          simp at hc

theorem upgradeDurationSong_keepsUrlId (pyInt : String → Option ℤ) (s : SongRec) :
    (upgradeDurationSong pyInt s).1.url = s.url ∧ (upgradeDurationSong pyInt s).1.id = s.id := by
  cases hd : s.duration with
  | none => simp [upgradeDurationSong, hd]
  | some dv =>
      cases dv with
      | int n => simp [upgradeDurationSong, hd]
      | str t => simp [upgradeDurationSong, hd]

theorem loadAndUpgrade_noop (pre : String) (pyInt : String → Option ℤ) (l : List SongRec)
    (hclean : ∀ s ∈ l, DurClean s)
    (hstable : isV1Playlist l = true → ∀ s ∈ l, UrlStable pre s) :
    loadAndUpgrade pre pyInt l = ⟨l, false⟩ := by
  have hurl : (if isV1Playlist l then l.map (upgradeUrlSong pre)
      else l.map (fun s => (s, false))) = l.map (fun s => (s, false)) := by
    by_cases hv : isV1Playlist l = true
    · rw [if_pos hv]
      exact List.map_congr_left (fun s hs => urlStable_flag_false pre s (hstable hv s hs))
    · rw [if_neg (by simp [hv])]
  have hdur : l.map (upgradeDurationSong pyInt) = l.map (fun s => (s, false)) :=
    List.map_congr_left (fun s hs => upgradeDurationSong_eq_of_clean pyInt s (hclean s hs))
  simp only [loadAndUpgrade, hurl, List.map_map]
  have hcomp : (upgradeDurationSong pyInt ∘ Prod.fst ∘ fun s : SongRec => (s, false))
      = upgradeDurationSong pyInt := rfl
  have hid : ∀ s ∈ l, (Prod.fst ∘ upgradeDurationSong pyInt) s = id s := fun s hs => by
    simp only [Function.comp_apply, upgradeDurationSong_eq_of_clean pyInt s (hclean s hs), id]
  rw [hcomp, hdur]
  simp [List.map_map, List.any_map, Function.comp]
  calc List.map (Prod.fst ∘ upgradeDurationSong pyInt) l = List.map id l :=
        List.map_congr_left hid
    _ = l := List.map_id l

theorem loadAndUpgrade_songs_eq (pre : String) (pyInt : String → Option ℤ)
    (file : List SongRec) :
    (loadAndUpgrade pre pyInt file).songs
      = ((if isV1Playlist file then file.map (fun s => (upgradeUrlSong pre s).1)
          else file).map (fun s => (upgradeDurationSong pyInt s).1)) := by
  by_cases hv : isV1Playlist file = true
  · simp [loadAndUpgrade, hv, List.map_map, Function.comp]
  · simp [loadAndUpgrade, hv, List.map_map, Function.comp]

theorem loadAndUpgrade_all_clean (pre : String) (pyInt : String → Option ℤ)
    (file : List SongRec) :
    ∀ s ∈ (loadAndUpgrade pre pyInt file).songs, DurClean s := by
  intro s hs
  rw [loadAndUpgrade_songs_eq] at hs
  obtain ⟨t, _, rfl⟩ := List.mem_map.mp hs
  exact upgradeDurationSong_clean pyInt t

theorem loadAndUpgrade_all_stable (pre : String) (pyInt : String → Option ℤ)
    (file : List SongRec) (hv : isV1Playlist file = true) :
    ∀ s ∈ (loadAndUpgrade pre pyInt file).songs, UrlStable pre s := by
  intro s hs
  rw [loadAndUpgrade_songs_eq, if_pos hv, List.map_map] at hs
  obtain ⟨t, _, rfl⟩ := List.mem_map.mp hs
  intro u hu
  have hpres := (upgradeDurationSong_keepsUrlId pyInt ((upgradeUrlSong pre t).1)).1
  have : (upgradeUrlSong pre t).1.url = some u := by
    rw [← hpres]
    exact hu
  exact upgradeUrlSong_urlStable pre t u this

theorem loadAndUpgrade_keeps_notV1 (pre : String) (pyInt : String → Option ℤ)
    (file : List SongRec) (hv : ¬ isV1Playlist file = true) :
    ¬ isV1Playlist (loadAndUpgrade pre pyInt file).songs = true := by
  rw [loadAndUpgrade_songs_eq, if_neg hv]
  cases file with
  | nil => simp [isV1Playlist]
  | cons s0 rest =>
      simp only [List.map_cons, isV1Playlist]
      have hu := (upgradeDurationSong_keepsUrlId pyInt s0).1
      have hi := (upgradeDurationSong_keepsUrlId pyInt s0).2
      simp only [isV1Playlist] at hv
      rw [hu, hi]
      exact hv

theorem loadAndUpgrade_second_noop (pre : String) (pyInt : String → Option ℤ)
    (file : List SongRec) :
    loadAndUpgrade pre pyInt (loadAndUpgrade pre pyInt file).songs
      = ⟨(loadAndUpgrade pre pyInt file).songs, false⟩ := by
  apply loadAndUpgrade_noop
  · exact loadAndUpgrade_all_clean pre pyInt file
  · intro hv1m
    by_cases hv : isV1Playlist file = true
    · exact loadAndUpgrade_all_stable pre pyInt file hv
    · exact absurd hv1m (loadAndUpgrade_keeps_notV1 pre pyInt file hv)

/-- What the claim states about playlist migration: loading is idempotent on
the stored file; a file already in v2 form (every record has an id and a
non-string duration) triggers no rewrite; and a string duration splitting as
H:M:S or M:S converts to integer seconds through Python `int`, with 180 on
any parse failure. -/
def MigrationSpec (pre : String) (pyInt : String → Option ℤ) (file : List SongRec) : Prop :=
  migrateFile pre pyInt (migrateFile pre pyInt file) = migrateFile pre pyInt file
  ∧ ((∀ s ∈ file, s.id.isSome = true) → (∀ s ∈ file, DurClean s) →
      loadAndUpgrade pre pyInt file = ⟨file, false⟩)
  ∧ (∀ d a b c, pySplit d ":" = [a, b, c] → d.toList.contains ':' = true →
      convertDuration pyInt d
        = match pyInt a, pyInt b, pyInt c with
          | some x, some y, some z => x * 3600 + y * 60 + z
          | _, _, _ => 180)
  ∧ (∀ d a b, pySplit d ":" = [a, b] → d.toList.contains ':' = true →
      convertDuration pyInt d
        = match pyInt a, pyInt b with
          | some y, some z => y * 60 + z
          | _, _ => 180)

/-- C7: playlist migration is idempotent (the second load never rewrites the
file), a v2-form playlist is left untouched, and colon-form string durations
convert to integer seconds with the 180 default on parse failure. -/
theorem migration_spec (pre : String) (pyInt : String → Option ℤ) (file : List SongRec) :
    MigrationSpec pre pyInt file := by
  refine ⟨?_, ?_, ?_, ?_⟩
  · by_cases hr : (loadAndUpgrade pre pyInt file).rewritten = true
    · have h1 : migrateFile pre pyInt file = (loadAndUpgrade pre pyInt file).songs := by
        rw [migrateFile, if_pos hr]
      rw [h1, migrateFile, loadAndUpgrade_second_noop]
      simp
    · have h1 : migrateFile pre pyInt file = file := by
        rw [migrateFile, if_neg hr]
      rw [h1]
      exact h1
  · intro hid hclean
    apply loadAndUpgrade_noop pre pyInt file hclean
    intro hv1
    exfalso
    cases file with
    | nil => simp [isV1Playlist] at hv1
    | cons s0 rest =>
        simp only [isV1Playlist, Bool.and_eq_true, Option.isNone_iff_eq_none] at hv1
        have := hid s0 (List.mem_cons_self s0 rest)
        rw [hv1.2] at this
        simp at this
  · intro d a b c hsplit hcolon
    rw [convertDuration, if_pos hcolon]
    unfold convertColonDuration
    rw [hsplit]
  · intro d a b hsplit hcolon
    rw [convertDuration, if_pos hcolon]
    unfold convertColonDuration
    rw [hsplit]

/-- A small concrete model of Python `int` for witnessing C7. -/
def pyIntDemo : String → Option ℤ :=
  fun s => if s = "1" then some 1 else if s = "02" then some 2
    else if s = "03" then some 3 else none

/-- A concrete v1-style playlist file for witnessing C7. -/
def fileDemo : List SongRec :=
  [{ id := none, url := some "https://x/watch?v=abc&t=1", duration := some (JsonDur.str "1:02:03") },
   { id := none, url := some "nomatch", duration := some (JsonDur.int 200) }]

theorem migration_spec_witness :
    (pySplit "1:02:03" ":" = ["1", "02", "03"]
      ∧ (String.toList "1:02:03").contains ':' = true)
    ∧ convertDuration pyIntDemo "1:02:03" = 3723 :=
  ⟨⟨by decide, by decide⟩, by
    have h := (migration_spec "v=" pyIntDemo fileDemo).2.2.1 "1:02:03" "1" "02" "03"
      (by decide) (by decide)
    rw [h]
    decide⟩

/-- `AudioPlayer._hash_int32` (cm_player.py, lines 344-349): Python's hash is
reduced modulo `2^32` (Python `%` returns a nonnegative remainder for a
positive modulus, matching `Int.emod`) and shifted by `int32_min`.  The
Python builtin `hash` value enters as the argument. -/
def hashInt32 (hashedValue : ℤ) : ℤ :=
  let int32Max : ℤ := 2 ^ 31 - 1
  let int32Min : ℤ := -(2 ^ 31)
  hashedValue % (int32Max - int32Min + 1) + int32Min

/-- C10: for every hash value, `_hash_int32` lands in the signed 32-bit range
`[-2^31, 2^31 - 1]`, so every ring-block tag fits an int32 slot. -/
theorem hashInt32_range (h : ℤ) :
    -(2 ^ 31) ≤ hashInt32 h ∧ hashInt32 h ≤ 2 ^ 31 - 1 := by
  have heq : hashInt32 h = h % 4294967296 + -2147483648 := by
    simp only [hashInt32]
    norm_num
  have h32 : (2 : ℤ) ^ 31 = 2147483648 := by norm_num
  rw [heq, h32]
  omega
